import Mathlib

/-
Verification of the leego HTTP framework core (leego.go, middleware/slash.go).

The source is embedded shallowly: Go handlers mutate a context object in
place and return an error value or nil; here a handler takes the context
state and returns the updated state paired with an optional error.  The
context carries a trace field recording the observable side effects of
instrumented handlers in order, which is the test double the specification
asks for when checking middleware call order.
-/

namespace Leego

/-- Errors.  LeegoError is an interface exposing one method that produces a
message (src/leego.go lines 63-65); the concrete shape HTTPError carries a
status code and a message (src/leego.go lines 46-49).  Any other
implementation of the interface is abstracted by its message alone, via the
generic constructor. -/
inductive LeegoErr where
  | httpError (code : Nat) (message : String)
  | generic (message : String)
deriving DecidableEq

/-- Error method (src/leego.go lines 203-205): an HTTPError reports its
message; a generic error reports its underlying message. -/
def LeegoErr.errorMsg : LeegoErr → String
  | .httpError _ m => m
  | .generic m => m

/-- Model of the Go standard library function net/http.StatusText,
restricted to the status codes this development touches. -/
def statusText : Nat → String
  | 401 => "Unauthorized"
  | 404 => "Not Found"
  | 405 => "Method Not Allowed"
  | 413 => "Request Entity Too Large"
  | 415 => "Unsupported Media Type"
  | 500 => "Internal Server Error"
  | _ => ""

/-- Identity of the terminal handler resolved for a request.  The Go
context stores the handler function itself in its handler field; a
function-valued field would make the context type recursive in Lean, so the
resolved handler is addressed by a tag (the default not-found handler, or a
registered route handler identified by an index into the handler table of
the framework model) and interpreted through that table at dispatch time. -/
inductive HTag where
  | notFound
  | route (id : Nat)
deriving DecidableEq

/-- The per-request execution context (the echoContext of the source).  The
fields follow the record literal in NewContext (src/leego.go lines
222-232); trace records the observable side effects of instrumented
handlers and middleware in order. -/
structure EchoContext where
  trace : List String := []
  pvalues : List String := []
  handlerTag : HTag := .notFound
  data : List (String × String) := []
  lang : String := ""

/-- HandlerFunc (src/leego.go line 55), in state-passing form. -/
abbrev HandlerFunc := EchoContext → EchoContext × Option LeegoErr

/-- MiddlewareFunc (src/leego.go line 52). -/
abbrev Middleware := HandlerFunc → HandlerFunc

/-- NotFoundHandler (src/leego.go lines 183-185) returns ErrNotFound, which
is NewHTTPError(StatusNotFound) with message StatusText(404)
(src/leego.go lines 172 and 193-200). -/
def NotFoundHandler : HandlerFunc :=
  fun c => (c, some (.httpError 404 (statusText 404)))

/-- NewContext (src/leego.go lines 222-232): the parameter-value slice has
length maxParam and Go make fills it with empty strings, the handler
defaults to NotFoundHandler (represented by its tag), and the data bag is a
fresh empty map. -/
def NewContext (maxParam : Nat) : EchoContext :=
  { trace := [], pvalues := List.replicate maxParam "",
    handlerTag := .notFound, data := [], lang := "" }

/-- The middleware folding loop that both add and ServeHTTP use
(src/leego.go lines 423-425 and 458-460): starting from the terminal
handler, wrap with each middleware from the last index down to index 0, so
chain [m0, m1] h = m0 (m1 h). -/
def chain (m : List Middleware) (h : HandlerFunc) : HandlerFunc :=
  match m with
  | [] => h
  | mw :: rest => mw (chain rest h)

/-- The handler that add stores in the router (src/leego.go lines
420-427): a closure chaining the route-level middleware around the
registered handler and invoking the result on the context. -/
def addStoredHandler (middleware : List Middleware) (handler : HandlerFunc) : HandlerFunc :=
  fun c => (chain middleware handler) c

/-- WrapMiddleware (src/leego.go lines 521-530): run the wrapped handler
first; a non-nil error is returned at once, otherwise the next handler runs
on the context the wrapped handler left behind. -/
def WrapMiddleware (h : HandlerFunc) : Middleware :=
  fun next => fun c =>
    match h c with
    | (c1, some e) => (c1, some e)
    | (c1, none) => next c1

/-- Instrumented middleware of the test double: records name-enter, runs
the inner handler, records name-exit. -/
def traceMW (name : String) : Middleware :=
  fun next c =>
    let c1 : EchoContext := { c with trace := c.trace ++ [name ++ "-enter"] }
    let p := next c1
    ({ p.1 with trace := p.1.trace ++ [name ++ "-exit"] }, p.2)

/-- Instrumented terminal handler of the test double. -/
def traceH (name : String) : HandlerFunc :=
  fun c => ({ c with trace := c.trace ++ [name] }, none)

/-- The framework state that ServeHTTP reads (the fields of the Leego
struct, src/leego.go lines 22-36, that dispatch uses): the premiddleware
and middleware lists, the precomputed maximum parameter count, the router
lookup (Find mutates the context, setting its resolved-handler tag and its
parameter values), and the table interpreting route-handler tags. -/
structure LeegoM where
  premiddleware : List Middleware
  middleware : List Middleware
  maxParam : Nat
  routerFind : String → String → EchoContext → EchoContext
  handlerTable : Nat → HandlerFunc

/-- Reading a handler tag back as a handler through the framework table. -/
def interpTag (e : LeegoM) : HTag → HandlerFunc
  | .notFound => NotFoundHandler
  | .route i => e.handlerTable i

/-- The slice of an engine.Request that dispatch consumes. -/
structure Request where
  method : String
  path : String
  acceptLanguage : String

/-- pool.Get (src/leego.go line 448): hand out a recycled context when the
pool holds one, otherwise the pool factory runs NewContext (src/leego.go
lines 210-212). -/
def poolGet (e : LeegoM) (pool : List EchoContext) : EchoContext × List EchoContext :=
  match pool with
  | [] => (NewContext e.maxParam, [])
  | c :: rest => (c, rest)

/-- Modelled from the spec: echoContext.Reset lives in a context source
file that is not part of src/.  The spec states that reset clears all
per-request mutable state: the handler returns to the default not-found
handler, the parameter slice is truncated to length zero, and the data bag
is cleared. -/
def resetCtx (c : EchoContext) : EchoContext :=
  { c with
      trace := []
      pvalues := []
      handlerTag := .notFound
      data := []
      lang := "" }

/-- Modelled from the spec: SetLang caches the locale tag parsed once per
request (the context source file is not part of src/). -/
def setLang (c : EchoContext) (l : String) : EchoContext :=
  { c with lang := l }

/-- Outcome of one dispatch: the error handed to the centralized result
handler, the final context state, and the pool after the context has been
returned to it. -/
structure ServeOutcome where
  err : Option LeegoErr
  finalCtx : EchoContext
  poolAfter : List EchoContext

/-- ServeHTTP (src/leego.go lines 447-474): acquire a context from the
pool, reset it, cache the language header, build the inner handler (router
lookup, then the global middleware chained around the resolved handler),
chain the premiddleware around that, execute the composed chain, hand the
result to the response handler, and put the context back into the pool. -/
def ServeHTTP (e : LeegoM) (pool : List EchoContext) (req : Request) : ServeOutcome :=
  let acq := poolGet e pool
  let c1 := setLang (resetCtx acq.1) req.acceptLanguage
  let inner : HandlerFunc := fun c =>
    let c2 := e.routerFind req.method req.path c
    let h := interpTag e c2.handlerTag
    (chain e.middleware h) c2
  let h := chain e.premiddleware inner
  let r := h c1
  { err := r.2, finalCtx := r.1, poolAfter := r.1 :: acq.2 }

/-- The response write an error handler performs: status only, or status
with a string body. -/
inductive RespWrite where
  | noContent (code : Nat)
  | strBody (code : Nat) (body : String)
deriving DecidableEq

/-- The status code DefaultHTTPErrorHandler selects (src/leego.go lines
250-255): the code of a recognized HTTPError, otherwise 500. -/
def errCode : LeegoErr → Nat
  | .httpError c _ => c
  | .generic _ => 500

/-- DefaultHTTPErrorHandler (src/leego.go lines 249-267), as the response
write it performs: none when the response is already committed; a bare
status for a HEAD request; otherwise a string body, which is the raw error
message when the debug flag is set and the selected message otherwise. -/
def DefaultHTTPErrorHandler (debug : Bool) (err : LeegoErr)
    (committed : Bool) (method : String) : Option RespWrite :=
  let cm : Nat × String :=
    match err with
    | .httpError c m => (c, m)
    | .generic _ => (500, statusText 500)
  let msg := if debug then err.errorMsg else cm.2
  if committed then none
  else if method = "HEAD" then some (.noContent cm.1)
  else some (.strBody cm.1 msg)

/-- Test double for global-middleware ordering: middleware list [A, B]
around a single route whose handler is H, all instrumented. -/
def globalMWExample : LeegoM :=
  { premiddleware := [], middleware := [traceMW "A", traceMW "B"],
    maxParam := 0,
    routerFind := fun _ _ c => { c with handlerTag := .route 0 },
    handlerTable := fun _ => traceH "H" }

/-- Test double for premiddleware ordering: premiddleware list [A, B]
around a single route whose handler is H. -/
def preMWExample : LeegoM :=
  { premiddleware := [traceMW "A", traceMW "B"], middleware := [],
    maxParam := 0,
    routerFind := fun _ _ c => { c with handlerTag := .route 0 },
    handlerTable := fun _ => traceH "H" }

/-- Test double whose route handler fails with an unstructured error. -/
def errMWExample : LeegoM :=
  { premiddleware := [], middleware := [], maxParam := 0,
    routerFind := fun _ _ c => { c with handlerTag := .route 0 },
    handlerTable := fun _ => fun c => (c, some (.generic "boom")) }

/-- A fixed request used by the concrete dispatch examples. -/
def reqX : Request :=
  { method := "GET", path := "/x", acceptLanguage := "" }

/-- The request state the trailing-slash middleware reads and rewrites:
the URL path, the raw query string, and the request URI. -/
structure SlashReq where
  path : String
  queryString : String
  uri : String
deriving DecidableEq

/-- What a trailing-slash handler does with a request: pass the (possibly
rewritten) request on to the next handler, or answer with a redirect. -/
inductive SlashResult where
  | next (st : SlashReq)
  | redirect (code : Nat) (target : String)
deriving DecidableEq

/-- Go string byte indexing s[i] at an int index: defined exactly when the
index is in bounds; none models the runtime index-out-of-range panic. -/
def goIndex (s : String) (i : Int) : Option Char :=
  if 0 ≤ i ∧ i < (s.length : Int) then some (s.data.getD i.toNat ' ') else none

/-- The request handler produced by AddTrailingSlashWithConfig
(src/middleware/slash.go lines 42-70).  skip is the verdict of the
configured skipper on this request; a redirect code of zero selects
forward mode.  The outcome none models a panic of the byte access
path[len(path)-1], which the source guards only by the path being
different from the root path. -/
def addTrailingSlashHandler (redirectCode : Nat) (skip : Bool)
    (st : SlashReq) : Option SlashResult :=
  if skip then some (.next st)
  else
    let path := st.path
    let qs := st.queryString
    if path ≠ "/" then
      match goIndex path ((path.length : Int) - 1) with
      | none => none
      | some c =>
        if c ≠ '/' then
          let path1 := path ++ "/"
          let uri := if qs ≠ "" then path1 ++ "?" ++ qs else path1
          if redirectCode ≠ 0 then some (.redirect redirectCode uri)
          else some (.next { st with path := path1, uri := uri })
        else some (.next st)
    else some (.next st)

/-- The request handler produced by RemoveTrailingSlashWithConfig
(src/middleware/slash.go lines 89-118).  The byte access path[l] is
guarded by l being nonnegative, so every branch produces a result. -/
def removeTrailingSlashHandler (redirectCode : Nat) (skip : Bool)
    (st : SlashReq) : Option SlashResult :=
  if skip then some (.next st)
  else
    let path := st.path
    let qs := st.queryString
    let l : Int := (path.length : Int) - 1
    if 0 ≤ l ∧ path ≠ "/" ∧ goIndex path l = some '/' then
      let path1 := String.mk (path.data.take l.toNat)
      let uri := if qs ≠ "" then path1 ++ "?" ++ qs else path1
      if redirectCode ≠ 0 then some (.redirect redirectCode uri)
      else some (.next { st with path := path1, uri := uri })
    else some (.next st)

/-- A Route registry entry (src/leego.go lines 39-43): the method, the
path pattern, and the stable handler identity used for reverse lookup. -/
structure Route where
  method : String
  path : String
  handler : String
deriving DecidableEq

/-- Dropping a prefix never lengthens a list. -/
theorem length_dropWhile_le (p : Char → Bool) (l : List Char) :
    (l.dropWhile p).length ≤ l.length := by
  induction l with
  | nil => simp [List.dropWhile]
  | cons x xs ih =>
    rw [List.dropWhile_cons]
    split
    · exact Nat.le_succ_of_le ih
    · simp

/-- The byte loop of URI (src/leego.go lines 498-508) over the remaining
pattern bytes, with the output buffer passed along.  A ':' byte while
parameter values remain makes the inner loop skip forward to the next '/'
byte or to the end of the pattern, the current parameter value is written,
and then the byte that stopped the skip is written when the skip stopped
inside the pattern; every other byte is copied verbatim. -/
def substAux (cs : List Char) (params : List String) (n : Nat)
    (acc : List Char) : List Char :=
  match cs with
  | [] => acc
  | c :: rest =>
    if c = ':' ∧ n < params.length then
      if hde : ((c :: rest).dropWhile (fun ch => ch ≠ '/')) = [] then
        acc ++ (params.getD n "").data
      else
        substAux ((c :: rest).dropWhile (fun ch => ch ≠ '/')).tail params (n + 1)
          (acc ++ (params.getD n "").data
            ++ [((c :: rest).dropWhile (fun ch => ch ≠ '/')).headD ' '])
    else substAux rest params n (acc ++ [c])
termination_by cs.length
decreasing_by
  · have hle := length_dropWhile_le (fun ch => decide (ch ≠ '/')) (c :: rest)
    have hpos : 0 < ((c :: rest).dropWhile (fun ch => decide (ch ≠ '/'))).length :=
      List.length_pos.mpr hde
    rw [List.length_tail]
    simp only [List.length_cons] at hle ⊢
    omega
  · simp only [List.length_cons]
    omega

/-- URI (src/leego.go lines 491-513): the source ranges over the router
map routes, whose iteration order Go leaves unspecified, and rewrites the
pattern of the first route whose handler identity matches in that order;
when none matches the buffer stays empty.  The routes argument is the map
contents in one arbitrary enumeration order, so a property of the program
must hold for every enumeration of the registered entries; the dependence
of the result on the enumeration order is exhibited separately.  The Go
parameter values are arbitrary and printed with a default format; they are
modelled by their printed strings. -/
def URI (routes : List Route) (name : String) (params : List String) : String :=
  match routes.find? (fun r => r.handler == name) with
  | none => ""
  | some r => String.mk (substAux r.path.data params 0 [])

/-- Spec-level view of a route pattern: a sequence of segments separated
by slashes, each either static text or a named parameter. -/
inductive Seg where
  | static (s : String)
  | param (name : String)
deriving DecidableEq

/-- The characters a segment contributes to the pattern string. -/
def segChars : Seg → List Char
  | .static s => s.data
  | .param n => ':' :: n.data

/-- The pattern string denoted by a list of segments. -/
def mkPathChars : List Seg → List Char
  | [] => []
  | s :: rest => '/' :: (segChars s ++ mkPathChars rest)

/-- Spec-level substitution: static segments are kept and each parameter
segment consumes the next supplied value in order. -/
def substSpec : List Seg → List String → List Char
  | [], _ => []
  | .static s :: rest, ps => '/' :: (s.data ++ substSpec rest ps)
  | .param _ :: rest, ps => '/' :: ((ps.headD "").data ++ substSpec rest ps.tail)

/-- Number of parameter segments of a pattern. -/
def numParams : List Seg → Nat
  | [] => 0
  | .static _ :: rest => numParams rest
  | .param _ :: rest => numParams rest + 1

/-- A well-formed pattern segment: static text holds no colon byte (a
colon byte anywhere triggers substitution in the source loop) and
parameter names hold no slash byte (the skip stops at a slash byte). -/
def segWF : Seg → Prop
  | .static s => ':' ∉ s.data
  | .param n => '/' ∉ n.data

/-- The chain loop equals a right fold of the middleware list. -/
theorem chain_eq_foldr (m : List Middleware) (h : HandlerFunc) :
    chain m h = List.foldr (fun mw acc => mw acc) h m := by
  induction m with
  | nil => rfl
  | cons mw rest ih => simp [chain, ih]

/-- C1: the chain ServeHTTP composes folds each middleware list from last
to first, making the first-declared middleware the outermost wrapper; in
particular composing middleware [A, B] around terminal handler H, whether
as global middleware or as premiddleware, yields the call order A-enter,
B-enter, H, B-exit, A-exit. -/
theorem serveHTTP_fold_order :
    (∀ (m : List Middleware) (h : HandlerFunc),
      chain m h = List.foldr (fun mw acc => mw acc) h m)
    ∧ (∀ (mw : Middleware) (rest : List Middleware) (h : HandlerFunc),
      chain (mw :: rest) h = mw (chain rest h))
    ∧ (ServeHTTP globalMWExample [] reqX).finalCtx.trace
        = ["A-enter", "B-enter", "H", "B-exit", "A-exit"]
    ∧ (ServeHTTP preMWExample [] reqX).finalCtx.trace
        = ["A-enter", "B-enter", "H", "B-exit", "A-exit"] := by
  refine ⟨chain_eq_foldr, fun mw rest h => rfl, ?_, ?_⟩ <;> rfl

/-- C4: the handler stored by add for a route with route-level middleware
list m and registered handler h behaves exactly as the right fold
m[0] (m[1] (... (h))) of the middleware around the handler. -/
theorem add_prefold_equiv :
    ∀ (m : List Middleware) (h : HandlerFunc) (c : EchoContext),
      addStoredHandler m h c = (List.foldr (fun mw acc => mw acc) h m) c := by
  intro m h c
  rw [addStoredHandler, chain_eq_foldr]

/-- C7: ServeHTTP returns the acquired context to the pool unconditionally:
for every framework state, pool and request, the pool after dispatch is
exactly the final context state put back on top of the remaining pool,
whatever error the composed chain produced; in particular this also holds
for a dispatch whose route handler fails. -/
theorem serveHTTP_pool_return :
    (∀ (e : LeegoM) (pool : List EchoContext) (req : Request),
      (ServeHTTP e pool req).poolAfter
        = (ServeHTTP e pool req).finalCtx :: (poolGet e pool).2)
    ∧ (ServeHTTP errMWExample [] reqX).err = some (.generic "boom")
    ∧ (ServeHTTP errMWExample [] reqX).poolAfter
        = [(ServeHTTP errMWExample [] reqX).finalCtx] := by
  exact ⟨fun e pool req => rfl, rfl, rfl⟩

/-- C8: a context built by NewContext starts with the not-found handler,
an empty data bag, and a parameter-value slice of length maxParam filled
with empty strings. -/
theorem newContext_defaults :
    ∀ maxParam : Nat,
      (NewContext maxParam).handlerTag = HTag.notFound
      ∧ (NewContext maxParam).data = []
      ∧ (NewContext maxParam).pvalues = List.replicate maxParam ""
      ∧ (NewContext maxParam).pvalues.length = maxParam := by
  intro maxParam
  refine ⟨rfl, rfl, rfl, ?_⟩
  simp [NewContext]

/-- C10: WrapMiddleware h applied to next runs h first; when h fails the
error is returned with the state h left (and the result does not depend on
next, so next is never invoked), and when h succeeds the result is exactly
the result of next on the context state h left behind. -/
theorem wrapMiddleware_semantics :
    ∀ (h next : HandlerFunc) (c : EchoContext),
      ((h c).2.isSome →
        WrapMiddleware h next c = h c
        ∧ ∀ next2 : HandlerFunc,
            WrapMiddleware h next c = WrapMiddleware h next2 c)
      ∧ ((h c).2 = none → WrapMiddleware h next c = next (h c).1) := by
  intro h next c
  constructor
  · intro hs
    rcases he : h c with ⟨c1, e⟩
    cases e with
    | none => rw [he] at hs; simp at hs
    | some err =>
      constructor
      · simp [WrapMiddleware, he]
      · intro next2; simp [WrapMiddleware, he]
  · intro hn
    rcases he : h c with ⟨c1, e⟩
    cases e with
    | none => simp [WrapMiddleware, he]
    | some err => rw [he] at hn; simp at hn

/-- Witness for C10 at a concrete failing handler and a concrete
succeeding handler. -/
theorem wrapMiddleware_semantics_witness :
    (WrapMiddleware (fun c => (c, some (.generic "boom"))) (traceH "N")
        (NewContext 0)
      = ((NewContext 0), some (.generic "boom")))
    ∧ (WrapMiddleware (traceH "pre") (traceH "N") (NewContext 0)
      = traceH "N" (traceH "pre" (NewContext 0)).1) := by
  constructor
  · exact (wrapMiddleware_semantics (fun c => (c, some (.generic "boom")))
      (traceH "N") (NewContext 0)).1 rfl |>.1
  · exact (wrapMiddleware_semantics (traceH "pre") (traceH "N")
      (NewContext 0)).2 rfl

/-- C3: with the response not committed and the method not HEAD, the
default error handler renders a non-HTTPError with debug off as status 500
with the generic status text, renders the raw error message whenever the
debug flag is on, and uses an HTTPError by its code and message. -/
theorem defaultErrorHandler_rendering :
    ∀ method : String, method ≠ "HEAD" →
      (∀ msg : String,
        DefaultHTTPErrorHandler false (.generic msg) false method
          = some (.strBody 500 (statusText 500)))
      ∧ (∀ err : LeegoErr,
        DefaultHTTPErrorHandler true err false method
          = some (.strBody (errCode err) err.errorMsg))
      ∧ (∀ (debug : Bool) (code : Nat) (msg : String),
        DefaultHTTPErrorHandler debug (.httpError code msg) false method
          = some (.strBody code msg)) := by
  intro method hm
  refine ⟨?_, ?_, ?_⟩
  · intro msg
    simp [DefaultHTTPErrorHandler, hm]
  · intro err
    cases err <;>
      simp [DefaultHTTPErrorHandler, errCode, LeegoErr.errorMsg, hm]
  · intro debug code msg
    cases debug <;> simp [DefaultHTTPErrorHandler, LeegoErr.errorMsg, hm]

/-- Witness for C3 at the method GET and concrete errors. -/
theorem defaultErrorHandler_rendering_witness :
    (DefaultHTTPErrorHandler false (.generic "boom") false "GET"
      = some (.strBody 500 (statusText 500)))
    ∧ (DefaultHTTPErrorHandler true (.generic "boom") false "GET"
      = some (.strBody 500 "boom"))
    ∧ (DefaultHTTPErrorHandler false (.httpError 404 "Not Found") false "GET"
      = some (.strBody 404 "Not Found")) := by
  refine ⟨?_, ?_, ?_⟩
  · exact (defaultErrorHandler_rendering "GET" (by decide)).1 "boom"
  · exact (defaultErrorHandler_rendering "GET" (by decide)).2.1 (.generic "boom")
  · exact (defaultErrorHandler_rendering "GET" (by decide)).2.2 false 404 "Not Found"

/-- C6: a committed response is never written to by the default error
handler, and an uncommitted response to a HEAD request receives only the
status code and no body, for every error and debug setting. -/
theorem defaultErrorHandler_committed_head :
    (∀ (debug : Bool) (err : LeegoErr) (method : String),
      DefaultHTTPErrorHandler debug err true method = none)
    ∧ (∀ (debug : Bool) (err : LeegoErr),
      DefaultHTTPErrorHandler debug err false "HEAD"
        = some (.noContent (errCode err))) := by
  constructor
  · intro debug err method
    simp [DefaultHTTPErrorHandler]
  · intro debug err
    cases err <;> simp [DefaultHTTPErrorHandler, errCode]

/-- C5: in forward mode the add-trailing-slash handler rewrites path /a
with query x=1 to path /a/ and URI /a/?x=1, preserving the query string;
the remove-trailing-slash handler rewrites /a/ to /a; and neither handler
modifies a request whose path is the root path. -/
theorem slash_rewrite :
    (addTrailingSlashHandler 0 false
        { path := "/a", queryString := "x=1", uri := "/a?x=1" }
      = some (.next { path := "/a/", queryString := "x=1", uri := "/a/?x=1" }))
    ∧ (removeTrailingSlashHandler 0 false
        { path := "/a/", queryString := "", uri := "/a/" }
      = some (.next { path := "/a", queryString := "", uri := "/a" }))
    ∧ (∀ (rc : Nat) (qs u : String),
      addTrailingSlashHandler rc false { path := "/", queryString := qs, uri := u }
        = some (.next { path := "/", queryString := qs, uri := u }))
    ∧ (∀ (rc : Nat) (qs u : String),
      removeTrailingSlashHandler rc false { path := "/", queryString := qs, uri := u }
        = some (.next { path := "/", queryString := qs, uri := u })) := by
  refine ⟨?_, ?_, ?_, ?_⟩
  · rfl
  · rfl
  · intro rc qs u; rfl
  · intro rc qs u; rfl

/-- Indexing the last byte of a nonempty string is in bounds. -/
theorem goIndex_last_isSome (s : String) (h : s ≠ "") :
    (goIndex s ((s.length : Int) - 1)).isSome = true := by
  have hl : 0 < s.length := by
    rcases s with ⟨l⟩
    cases l with
    | nil => exact absurd rfl h
    | cons c cs => simp [String.length]
  have h0 : (0 : Int) ≤ (s.length : Int) - 1 := by omega
  have h1 : (s.length : Int) - 1 < (s.length : Int) := by omega
  simp [goIndex, h0, h1]

/-- C9: the remove-trailing-slash handler is total on every request path
including the empty one, which it forwards unchanged, while the
add-trailing-slash handler reaches its byte access guarded only by the
root-path test: it is defined whenever the path is nonempty, and the
access is out of bounds on the empty path. -/
theorem slash_totality :
    (∀ (rc : Nat) (skip : Bool) (st : SlashReq),
      (removeTrailingSlashHandler rc skip st).isSome = true)
    ∧ (∀ (rc : Nat) (qs u : String),
      removeTrailingSlashHandler rc false { path := "", queryString := qs, uri := u }
        = some (.next { path := "", queryString := qs, uri := u }))
    ∧ (∀ (rc : Nat) (skip : Bool) (st : SlashReq), st.path ≠ "" →
      (addTrailingSlashHandler rc skip st).isSome = true)
    ∧ (∀ (rc : Nat) (qs u : String),
      addTrailingSlashHandler rc false { path := "", queryString := qs, uri := u }
        = none) := by
  refine ⟨?_, ?_, ?_, ?_⟩
  · intro rc skip st
    simp only [removeTrailingSlashHandler]
    split
    · rfl
    · split
      · split <;> rfl
      · rfl
  · intro rc qs u; rfl
  · intro rc skip st hne
    cases skip with
    | true => simp [addTrailingSlashHandler]
    | false =>
      simp only [addTrailingSlashHandler, Bool.false_eq_true, if_false]
      split
      · have hsome := goIndex_last_isSome st.path hne
        rcases hgi : goIndex st.path ((st.path.length : Int) - 1) with _ | c
        · rw [hgi] at hsome
          simp at hsome
        · simp only [hgi]
          split
          · split <;> rfl
          · rfl
      · rfl
  · intro rc qs u; rfl

/-- Witness for C9 at a concrete nonempty path. -/
theorem slash_totality_witness :
    (addTrailingSlashHandler 0 false
        { path := "/a", queryString := "", uri := "/a" }).isSome = true := by
  exact slash_totality.2.2.1 0 false
    { path := "/a", queryString := "", uri := "/a" } (by decide)

/-- Unfolding substAux on the empty pattern. -/
theorem substAux_nil (params : List String) (n : Nat) (acc : List Char) :
    substAux [] params n acc = acc := by
  rw [substAux]

/-- Unfolding substAux on a byte that does not start a substitution. -/
theorem substAux_step (c : Char) (rest : List Char) (params : List String)
    (n : Nat) (acc : List Char) (h : ¬(c = ':' ∧ n < params.length)) :
    substAux (c :: rest) params n acc = substAux rest params n (acc ++ [c]) := by
  rw [substAux, if_neg h]

/-- Unfolding substAux on a colon byte while parameter values remain. -/
theorem substAux_colon (rest : List Char) (params : List String) (n : Nat)
    (acc : List Char) (hn : n < params.length) :
    substAux (':' :: rest) params n acc
      = if ((':' :: rest).dropWhile (fun ch => ch ≠ '/')) = [] then
          acc ++ (params.getD n "").data
        else
          substAux ((':' :: rest).dropWhile (fun ch => ch ≠ '/')).tail params (n + 1)
            (acc ++ (params.getD n "").data
              ++ [((':' :: rest).dropWhile (fun ch => ch ≠ '/')).headD ' ']) := by
  rw [substAux, if_pos ⟨rfl, hn⟩]
  split <;> simp [*]

/-- Bytes satisfying the skip predicate are consumed across an append. -/
theorem dropWhile_slash_append (l m : List Char) (h : ∀ c ∈ l, c ≠ '/') :
    (l ++ m).dropWhile (fun ch => ch ≠ '/') = m.dropWhile (fun ch => ch ≠ '/') := by
  induction l with
  | nil => rfl
  | cons c l ih =>
    have hc : c ≠ '/' := h c (List.mem_cons_self c l)
    rw [List.cons_append, List.dropWhile_cons, if_pos (by simpa using hc)]
    exact ih fun x hx => h x (List.mem_cons_of_mem c hx)

/-- The skip stops at a slash byte. -/
theorem dropWhile_slash_head (m : List Char) :
    ('/' :: m).dropWhile (fun ch => ch ≠ '/') = '/' :: m := by
  rw [List.dropWhile_cons, if_neg (by simp)]

/-- A run of bytes holding no colon byte is copied verbatim. -/
theorem substAux_copy (s : List Char) (hs : ':' ∉ s) :
    ∀ (cs : List Char) (params : List String) (n : Nat) (acc : List Char),
      substAux (s ++ cs) params n acc = substAux cs params n (acc ++ s) := by
  induction s with
  | nil =>
    intro cs params n acc
    simp
  | cons c s ih =>
    intro cs params n acc
    have hc : ¬(c = ':' ∧ n < params.length) := by
      rintro ⟨rfl, -⟩
      exact hs (List.mem_cons_self _ _)
    rw [List.cons_append, substAux_step c (s ++ cs) params n acc hc,
      ih (fun hx => hs (List.mem_cons_of_mem _ hx)) cs params n (acc ++ [c])]
    simp

/-- Positional lookup is the head of the dropped suffix. -/
theorem drop_headD_eq_getD (l : List String) (n : Nat) :
    (l.drop n).headD "" = l.getD n "" := by
  induction l generalizing n with
  | nil => cases n <;> rfl
  | cons a l ih =>
    cases n with
    | zero => rfl
    | succ m =>
      simp only [List.drop_succ_cons, List.getD_cons_succ]
      exact ih m

/-- The source loop rewrites a well-formed pattern exactly as the
spec-level segmentwise substitution, starting at parameter index n. -/
theorem substAux_mkPath (segs : List Seg) :
    ∀ (params : List String) (n : Nat) (acc : List Char),
      (∀ s ∈ segs, segWF s) → n + numParams segs ≤ params.length →
      substAux (mkPathChars segs) params n acc
        = acc ++ substSpec segs (params.drop n) := by
  induction segs with
  | nil =>
    intro params n acc hwf hn
    simp [mkPathChars, substSpec, substAux_nil]
  | cons s rest ih =>
    intro params n acc hwf hn
    have hwfs : segWF s := hwf s (List.mem_cons_self _ _)
    have hwfr : ∀ x ∈ rest, segWF x := fun x hx => hwf x (List.mem_cons_of_mem s hx)
    have hslash : ∀ m : Nat, ¬(('/' : Char) = ':' ∧ m < params.length) := by
      rintro m ⟨h, -⟩
      exact absurd h (by decide)
    cases s with
    | static str =>
      have hn2 : n + numParams rest ≤ params.length := by
        simpa [numParams] using hn
      rw [mkPathChars, segChars, substAux_step _ _ _ _ _ (hslash n),
        substAux_copy str.data hwfs (mkPathChars rest) params n (acc ++ ['/']),
        ih params n ((acc ++ ['/']) ++ str.data) hwfr hn2]
      simp [substSpec]
    | param nm =>
      have hnp : n < params.length := by
        simp only [numParams] at hn
        omega
      have hn2 : (n + 1) + numParams rest ≤ params.length := by
        simp only [numParams] at hn
        omega
      have hwfn : '/' ∉ nm.data := hwfs
      have hdrop : ((':' :: (nm.data ++ mkPathChars rest)).dropWhile (fun ch => ch ≠ '/'))
          = (mkPathChars rest).dropWhile (fun ch => ch ≠ '/') := by
        rw [List.dropWhile_cons, if_pos (by simp)]
        exact dropWhile_slash_append nm.data (mkPathChars rest)
          (fun c hc he => hwfn (he ▸ hc))
      rw [mkPathChars, segChars, substAux_step _ _ _ _ _ (hslash n),
        List.cons_append, substAux_colon _ params n _ hnp, hdrop]
      cases rest with
      | nil =>
        rw [mkPathChars]
        simp [substSpec, drop_headD_eq_getD]
      | cons s2 rest2 =>
        have hmk : mkPathChars (s2 :: rest2) = '/' :: (segChars s2 ++ mkPathChars rest2) :=
          rfl
        rw [hmk, dropWhile_slash_head, if_neg (by simp)]
        dsimp only [List.tail_cons, List.headD_cons]
        rw [← substAux_step '/' (segChars s2 ++ mkPathChars rest2) params (n + 1)
            (((acc ++ ['/']) ++ (params.getD n "").data)) (hslash (n + 1)),
          ← hmk, ih params (n + 1) _ hwfr hn2]
        simp [substSpec, drop_headD_eq_getD, List.tail_drop]

/-- The concrete pattern of the C2 example, as segments. -/
def postsCommentsSegs : List Seg :=
  [Seg.static "posts", Seg.param "id", Seg.static "comments", Seg.param "cid"]

/-- Well-formedness of a two-segment pattern made of one static and one
parameter segment. -/
theorem segWF_pair (s p : String) (hs : ':' ∉ s.data) (hp : '/' ∉ p.data) :
    ∀ x ∈ [Seg.static s, Seg.param p], segWF x := by
  intro x hx
  rcases List.mem_cons.mp hx with rfl | hx
  · exact hs
  · rcases List.mem_cons.mp hx with rfl | hx
    · exact hp
    · cases hx

/-- When exactly one route of an enumeration matches the handler identity,
the scan finds that route in every enumeration order. -/
theorem find_unique_match (routes : List Route) (name : String) (r : Route)
    (hr : r ∈ routes) (hname : r.handler = name)
    (huniq : ∀ r2 ∈ routes, r2.handler = name → r2 = r) :
    routes.find? (fun x => x.handler == name) = some r := by
  induction routes with
  | nil => cases hr
  | cons a rest ih =>
    by_cases ha : a.handler = name
    · rw [List.find?_cons_of_pos _ (by simp [ha])]
      rw [huniq a (List.mem_cons_self _ _) ha]
    · rw [List.find?_cons_of_neg _ (by simp [ha])]
      refine ih ?_ ?_
      · rcases List.mem_cons.mp hr with rfl | h
        · exact absurd hname ha
        · exact h
      · exact fun r2 h2 hn2 => huniq r2 (List.mem_cons_of_mem _ h2) hn2

/-- C2 counterexample: the route table is a map whose iteration order is
unspecified, so URI does not select the first-registered matching route.
With the same two routes sharing handler identity h registered at /a/:x
first and /b/:x second, the swapped enumeration is a permutation of the
registration order, yet under it URI yields /b/7 instead of the
first-registered substitution /a/7. -/
theorem uri_map_order_counterexample :
    List.Perm
      [({ method := "GET", path := "/b/:x", handler := "h" } : Route),
        { method := "GET", path := "/a/:x", handler := "h" }]
      [({ method := "GET", path := "/a/:x", handler := "h" } : Route),
        { method := "GET", path := "/b/:x", handler := "h" }]
    ∧ URI [{ method := "GET", path := "/a/:x", handler := "h" },
        { method := "GET", path := "/b/:x", handler := "h" }] "h" ["7"] = "/a/7"
    ∧ URI [{ method := "GET", path := "/b/:x", handler := "h" },
        { method := "GET", path := "/a/:x", handler := "h" }] "h" ["7"] = "/b/7"
    ∧ ("/b/7" : String) ≠ "/a/7" := by
  refine ⟨List.Perm.swap _ _ _, ?_, ?_, by decide⟩
  · show String.mk (substAux "/a/:x".data ["7"] 0 []) = "/a/7"
    have hp : "/a/:x".data = mkPathChars [Seg.static "a", Seg.param "x"] := rfl
    rw [hp, substAux_mkPath _ ["7"] 0 []
      (segWF_pair "a" "x" (by decide) (by decide)) (by decide)]
    rfl
  · show String.mk (substAux "/b/:x".data ["7"] 0 []) = "/b/7"
    have hp : "/b/:x".data = mkPathChars [Seg.static "b", Seg.param "x"] := rfl
    rw [hp, substAux_mkPath _ ["7"] 0 []
      (segWF_pair "b" "x" (by decide) (by decide)) (by decide)]
    rfl

/-- C2 (amended): URI substitutes each parameter segment of the first
route whose handler identity matches in the order the route table is
enumerated, positionally with the supplied values; the result does not
depend on the enumeration order when at most one registered route matches
the identity, so a handler registered only at /posts/:id/comments/:cid
with values 7 and 3 yields /posts/7/comments/3 under every enumeration,
and an identity no registered route matches yields the empty string under
every enumeration. -/
theorem uri_generation :
    (∀ routes : List Route,
      routes.Perm
          [{ method := "GET", path := "/posts/:id/comments/:cid", handler := "h1" }] →
        URI routes "h1" ["7", "3"] = "/posts/7/comments/3")
    ∧ (∀ (routes : List Route) (name : String) (params : List String),
      (∀ r ∈ routes, ¬(r.handler = name)) → URI routes name params = "")
    ∧ (∀ (routes : List Route) (name : String) (params : List String) (r : Route),
      r ∈ routes → r.handler = name →
      (∀ r2 ∈ routes, r2.handler = name → r2 = r) →
        URI routes name params = String.mk (substAux r.path.data params 0 []))
    ∧ (∀ (routes : List Route) (name : String) (params : List String) (r : Route),
      routes.find? (fun x => x.handler == name) = some r →
        URI routes name params = String.mk (substAux r.path.data params 0 []))
    ∧ (∀ (segs : List Seg) (params : List String),
      (∀ s ∈ segs, segWF s) → numParams segs ≤ params.length →
        String.mk (substAux (mkPathChars segs) params 0 [])
          = String.mk (substSpec segs params)) := by
  have hgen : ∀ (segs : List Seg) (params : List String),
      (∀ s ∈ segs, segWF s) → numParams segs ≤ params.length →
      String.mk (substAux (mkPathChars segs) params 0 [])
        = String.mk (substSpec segs params) := by
    intro segs params hwf hn
    rw [substAux_mkPath segs params 0 [] hwf (by omega)]
    rfl
  refine ⟨?_, ?_, ?_, ?_, hgen⟩
  · intro routes hperm
    rw [List.perm_singleton.mp hperm]
    have hwfEx : ∀ s ∈ postsCommentsSegs, segWF s := by
      intro s hs
      simp only [postsCommentsSegs, List.mem_cons, List.not_mem_nil, or_false] at hs
      rcases hs with rfl | rfl | rfl | rfl <;> simp only [segWF] <;> decide
    have hpath : "/posts/:id/comments/:cid".data = mkPathChars postsCommentsSegs := by
      rfl
    have h4 := hgen postsCommentsSegs ["7", "3"] hwfEx (by decide)
    have hf : List.find? (fun r : Route => r.handler == "h1")
        ([{ method := "GET", path := "/posts/:id/comments/:cid", handler := "h1" }] : List Route)
        = some { method := "GET", path := "/posts/:id/comments/:cid", handler := "h1" } :=
      rfl
    rw [URI, hf]
    show String.mk (substAux "/posts/:id/comments/:cid".data ["7", "3"] 0 [])
        = "/posts/7/comments/3"
    rw [hpath, h4]
    rfl
  · intro routes name params hno
    rw [URI, List.find?_eq_none.mpr (fun x hx => by simpa using hno x hx)]
  · intro routes name params r hr hname huniq
    rw [URI, find_unique_match routes name r hr hname huniq]
  · intro routes name params r hf
    rw [URI, hf]

/-- Witness for C2 exercising every hypothesis: the example route under
the identity enumeration, an identity no route matches, a unique match,
a first-in-enumeration match, and the substitution theorem at a small
pattern. -/
theorem uri_generation_witness :
    (URI [{ method := "GET", path := "/posts/:id/comments/:cid", handler := "h1" }]
        "h1" ["7", "3"] = "/posts/7/comments/3")
    ∧ (URI [{ method := "GET", path := "/p", handler := "h1" }] "nope" ["7"] = "")
    ∧ (URI [{ method := "GET", path := "/p/:a", handler := "h2" }] "h2" ["9"]
      = String.mk (substAux "/p/:a".data ["9"] 0 []))
    ∧ (String.mk (substAux (mkPathChars [Seg.param "x"]) ["5"] 0 [])
      = String.mk (substSpec [Seg.param "x"] ["5"])) := by
  refine ⟨?_, ?_, ?_, ?_⟩
  · exact uri_generation.1 _ (List.Perm.refl _)
  · refine uri_generation.2.1 [{ method := "GET", path := "/p", handler := "h1" }]
      "nope" ["7"] ?_
    intro r hr
    rcases List.mem_cons.mp hr with rfl | hr
    · decide
    · cases hr
  · refine uri_generation.2.2.1 [{ method := "GET", path := "/p/:a", handler := "h2" }]
      "h2" ["9"] { method := "GET", path := "/p/:a", handler := "h2" }
      (List.mem_cons_self _ _) rfl ?_
    intro r2 h2 hn
    rcases List.mem_cons.mp h2 with rfl | h2
    · rfl
    · cases h2
  · refine uri_generation.2.2.2.2 [Seg.param "x"] ["5"] ?_ (by decide)
    intro s hs
    simp only [List.mem_cons, List.not_mem_nil, or_false] at hs
    rcases hs with rfl
    simp only [segWF]
    decide

end Leego
